import Mathlib

/-!
Verification development for the libssh2-based SSH client
(`pssh/libssh2_client.py`).  The Python source is shallowly embedded:
byte strings become `List Char`, generators become functions from the
list of raw reads to the list of yielded values, exceptions become
`Except`, and external collaborators (socket, protocol engine) are
parameters supplying the outcome of each call.
-/

namespace Pssh

/-- A Python exception value, carrying the `.message` attribute that
`_execute` inspects.  `authException` models `AuthenticationException`
from `pssh.exceptions`; `engineError` models errors raised by the
wrapped libssh2 engine. -/
inductive PyExc
  | authException (msg : String)
  | engineError (msg : String)
deriving DecidableEq, Repr

/-- The `.message` attribute of an exception. -/
def PyExc.msg : PyExc → String
  | PyExc.authException m => m
  | PyExc.engineError m => m

/-- Python 2 byte-string whitespace, as stripped by `str.strip()`:
space, tab, newline, carriage return, vertical tab, form feed. -/
def isPySpace (c : Char) : Bool :=
  c = ' ' || c = '\t' || c = '\n' || c = '\r' || c = Char.ofNat 11 || c = Char.ofNat 12

/-- Python `str.strip()`: remove leading and trailing whitespace. -/
def pyStrip (s : List Char) : List Char :=
  ((s.dropWhile isPySpace).reverse.dropWhile isPySpace).reverse

/-- Index of the first newline in a byte string, if any
(`str.find` restricted to the 1-byte POSIX `os.linesep`). -/
def findNl : List Char → Option Nat
  | [] => none
  | c :: t => if c = '\n' then some 0 else (findNl t).map (fun j => j + 1)

/-- Python `_data.find(os.linesep, _pos)` (with `-1` rendered as `none`):
index of the first newline at position `pos` or later. -/
def findFrom (data : List Char) (pos : Nat) : Option Nat :=
  (findNl (data.drop pos)).map (fun j => pos + j)

/-- Python slice `data[a:b]` for `0 ≤ a ≤ b`. -/
def pySlice (data : List Char) (a b : Nat) : List Char :=
  (data.take b).drop a

/-- The inner `while _pos < _size` scanning loop of
`SSHClient.read_output`, for one chunk `data` of freshly read bytes.
Returns the lines yielded from this chunk together with the updated
`remainder` and `_pos`.  `fuel` only drives the recursion; any value of
at least `data.length + 1 - pos` is enough (see `scanChunkAux_fuel`).

Source loop body: `linesep = _data.find(os.linesep, _pos)`; when
`linesep > 0`, yield `remainder + _data[_pos:linesep].strip()` (the
remainder, when present, is prepended unstripped) and set
`_pos = linesep + 1`; otherwise append `_data[_pos:]` to the remainder
and break. -/
def scanChunkAux : Nat → List Char → List Char → Nat → List (List Char) × List Char × Nat
  | 0, _, rem, pos => ([], rem, pos)
  | fuel + 1, data, rem, pos =>
    if pos < data.length then
      match findFrom data pos with
      | some i =>
        if 0 < i then
          let t := scanChunkAux fuel data [] (i + 1)
          ((rem ++ pyStrip (pySlice data pos i)) :: t.1, t.2)
        else
          ([], rem ++ data.drop pos, pos)
      | none => ([], rem ++ data.drop pos, pos)
    else ([], rem, pos)

/-- Scan one chunk, with enough fuel for the whole chunk. -/
def scanChunk (data rem : List Char) (pos : Nat) : List (List Char) × List Char × Nat :=
  scanChunkAux (data.length + 1) data rem pos

/-- The `while _size > 0` read loop of `SSHClient.read_output`: each
element of `chunks` is the data of one successful `read_ex` call, and
an empty read (size 0) ends the loop.  Crucially, the source carries
both `remainder` and `_pos` over from one chunk to the next — `_pos`
is never reset to `0` when fresh data arrives. -/
def readLoop : List (List Char) → List Char → Nat → List (List Char)
  | [], _, _ => []
  | d :: rest, rem, pos =>
    if d.length = 0 then []
    else
      let t := scanChunk d rem pos
      t.1 ++ readLoop rest t.2.1 t.2.2

/-- Lines yielded by `SSHClient.read_output` when the channel delivers
`chunks` (each a successful read) followed by a size-0 read and then
end-of-file: one pass of the outer `while not self.channel.eof()` loop,
starting with `remainder = ""` and `_pos = 0`.  The final remainder is
discarded when the generator finishes. -/
def read_output_lines (chunks : List (List Char)) : List (List Char) :=
  readLoop chunks [] 0

/-- Convert a string literal to the byte-list representation. -/
def toL (s : String) : List Char :=
  s.toList

/-- Python 2 `str.splitlines()` accumulator: split on `\n`, `\r` and
`\r\n`, with no trailing empty segment and no terminator kept. -/
def splitlinesAux : List Char → List Char → List (List Char)
  | [], acc => if acc.isEmpty then [] else [acc.reverse]
  | '\r' :: '\n' :: t, acc => acc.reverse :: splitlinesAux t []
  | '\n' :: t, acc => acc.reverse :: splitlinesAux t []
  | '\r' :: t, acc => acc.reverse :: splitlinesAux t []
  | c :: t, acc => splitlinesAux t (c :: acc)

/-- Python 2 `str.splitlines()`. -/
def pySplitlines (s : List Char) : List (List Char) :=
  splitlinesAux s []

/-- `SSHClient.read_stderr`: read the error stream once (`data` is the
result of `_eagain(self.channel.read_stderr)`, `none` when the engine
returned `None`), split with `splitlines()`, and yield each line.  The
source calls `line.strip()` but discards its result, so the yielded
lines are unstripped. -/
def read_stderr (data : Option (List Char)) : List (List Char) :=
  match data with
  | none => []
  | some d => pySplitlines d

/-- `SSHClient.exec_command`, restricted to the third and fourth
components of the 5-tuple it returns
(`self.channel, self.host, self.read_output(), iter([]), self.channel`):
the stdout line sequence and the stderr sequence.  The stderr slot in
the source is the literal empty iterator `iter([])`; `read_stderr` is
never called. -/
def exec_command (stdoutChunks : List (List Char)) : List (List Char) × List (List Char) :=
  (read_output_lines stdoutChunks, [])

/-- Is `needle` an initial segment of `hay`? (Python `startswith`.) -/
def leadsWith : List Char → List Char → Bool
  | [], _ => true
  | _ :: _, [] => false
  | a :: as, b :: bs => a = b && leadsWith as bs

/-- Python's substring test `needle in hay`. -/
def hasSub (needle : List Char) : List Char → Bool
  | [] => leadsWith needle []
  | c :: t => leadsWith needle (c :: t) || hasSub needle t

/-! ### Connection manager (`SSHClient._connect`) -/

/-- Observable actions of `_connect`: `blocking b` is
`self.sock.setblocking(b)`, `attempt k` is the `self.sock.connect`
call made with `retries = k`, `sleep n` is `gevent.sleep(n)`. -/
inductive ConnEvent
  | blocking (b : Bool)
  | attempt (k : Nat)
  | sleep (n : Nat)
deriving DecidableEq, Repr

/-- The exception argument tuple of `ConnectionErrorException` as
raised by `_connect`: host, port, `str(error_type)`, the current
`retries` counter, and `num_retries`. -/
structure ConnErr where
  host : String
  port : Nat
  error_type : String
  retry : Nat
  num_retries : Nat
deriving DecidableEq, Repr

/-- `SSHClient._connect(retries=r)`.  `fails k` tells whether the
socket `connect` call raised `socket.error` on the attempt with
`retries = k`; `errOf k` is the `str(error_type)` extracted from that
attempt's exception.  The first numeric argument is recursion fuel:
the source recurses only while `retries < num_retries`, so
`num_retries` fuel is always enough (see `connect_retry_spec`); when
fuel runs out the model raises exactly as the source does on
`retries >= num_retries`. -/
def connectAux (h : String) (p : Nat) (nr : Nat) (fails : Nat → Bool) (errOf : Nat → String) :
    Nat → Nat → List ConnEvent × Except ConnErr Unit
  | 0, r =>
    if fails r then
      ([ConnEvent.blocking true, ConnEvent.attempt r],
        Except.error ⟨h, p, errOf r, r, nr⟩)
    else
      ([ConnEvent.blocking true, ConnEvent.attempt r, ConnEvent.blocking false], Except.ok ())
  | g + 1, r =>
    if fails r then
      if r < nr then
        let rest := connectAux h p nr fails errOf g (r + 1)
        (ConnEvent.blocking true :: ConnEvent.attempt r :: ConnEvent.sleep 5 :: rest.1, rest.2)
      else
        ([ConnEvent.blocking true, ConnEvent.attempt r],
          Except.error ⟨h, p, errOf r, r, nr⟩)
    else
      ([ConnEvent.blocking true, ConnEvent.attempt r, ConnEvent.blocking false], Except.ok ())

/-- `SSHClient._connect()` as called from `__init__`: `retries` starts
at `1`. -/
def _connect (h : String) (p : Nat) (nr : Nat) (fails : Nat → Bool) (errOf : Nat → String) :
    List ConnEvent × Except ConnErr Unit :=
  connectAux h p nr fails errOf nr 1

/-- The event trace of `n` consecutive failing connect attempts
starting at `retries = r`: each attempt is preceded by
`setblocking(1)` and consecutive attempts are separated by a
`sleep(5)`. -/
def connFailTrace : Nat → Nat → List ConnEvent
  | _, 0 => []
  | r, 1 => [ConnEvent.blocking true, ConnEvent.attempt r]
  | r, n + 2 =>
    ConnEvent.blocking true :: ConnEvent.attempt r :: ConnEvent.sleep 5 ::
      connFailTrace (r + 1) (n + 1)

/-- Recognize a connect attempt event. -/
def isAttemptEv : ConnEvent → Bool
  | ConnEvent.attempt _ => true
  | _ => false

/-- Recognize a backoff sleep event. -/
def isSleepEv : ConnEvent → Bool
  | ConnEvent.sleep _ => true
  | _ => false

/-! ### Authenticator (`SSHClient.auth` and helpers) -/

/-- Observable actions of the authentication methods: `setBlocking b`
is `self.session.setblocking(b)`; `agentCall` is
`self.session.userauth_agent(self.user)`; `pkeyAttempt` is the
`userauth_publickey_fromfile` call of `_pkey_auth`;
`identityAttempt f b` is the `userauth_publickey_fromfile` call of
`_identity_auth` for identity file `f`, recording the session's
blocking mode `b` at the time of the call. -/
inductive AuthEvent
  | setBlocking (b : Bool)
  | agentCall
  | pkeyAttempt
  | identityAttempt (file : String) (blocking : Bool)
deriving DecidableEq, Repr

/-- `SSHClient._agent_auth`: `setblocking(1)`, `userauth_agent`,
`setblocking(0)`.  There is no `try/finally`: when the agent call
raises, the final `setblocking(0)` is skipped and the session is left
in blocking mode.  Returns the events, the session blocking mode after
the call, and the outcome. -/
def _agent_auth (agentOutcome : Except PyExc Unit) (_b0 : Bool) :
    List AuthEvent × Bool × Except PyExc Unit :=
  match agentOutcome with
  | Except.ok _ =>
    ([AuthEvent.setBlocking true, AuthEvent.agentCall, AuthEvent.setBlocking false],
      false, Except.ok ())
  | Except.error e =>
    ([AuthEvent.setBlocking true, AuthEvent.agentCall], true, Except.error e)

/-- `SSHClient._identity_auth`: probe each identity file in order,
skipping files that do not exist (`existsF`), swallowing per-file
failures (`outcomes`), returning on the first success, and raising
`AuthenticationException` when everything is exhausted.  `b` is the
session's blocking mode, unchanged by this method. -/
def _identity_auth (files : List String) (existsF : String → Bool)
    (outcomes : String → Except PyExc Unit) (b : Bool) :
    List AuthEvent × Except PyExc Unit :=
  match files with
  | [] => ([], Except.error (PyExc.authException "No authentication methods succeeded"))
  | f :: rest =>
    if existsF f then
      match outcomes f with
      | Except.ok _ => ([AuthEvent.identityAttempt f b], Except.ok ())
      | Except.error _ =>
        let t := _identity_auth rest existsF outcomes b
        (AuthEvent.identityAttempt f b :: t.1, t.2)
    else _identity_auth rest existsF outcomes b

/-- `SSHClient.auth`: when `pkey` is set, run only `_pkey_auth` and
return (or raise) whatever it does; otherwise try `_agent_auth`, and
on any exception from it fall through to `_identity_auth`.  Returns
the events, the session blocking mode afterwards, and the outcome. -/
def auth (pkey : Option String) (pkeyOutcome agentOutcome : Except PyExc Unit)
    (files : List String) (existsF : String → Bool)
    (idOutcomes : String → Except PyExc Unit) (b0 : Bool) :
    List AuthEvent × Bool × Except PyExc Unit :=
  match pkey with
  | some _ => ([AuthEvent.pkeyAttempt], b0, pkeyOutcome)
  | none =>
    let a := _agent_auth agentOutcome b0
    match a.2.2 with
    | Except.ok _ => (a.1, a.2.1, Except.ok ())
    | Except.error _ =>
      let i := _identity_auth files existsF idOutcomes a.2.1
      (a.1 ++ i.1, a.2.1, i.2)

/-! ### Channel manager and command execution (`SSHClient._execute`) -/

/-- Observable actions of `_execute`: `openChan k` is
`self.open_channel()` returning the `k`-th channel handle (the
original channel is handle 0); `ptyReq c` and `execCall c` are
`self.channel.pty()` and `self.channel.execute(cmd)` on handle `c`;
`yieldCtl` is the trailing `sleep()`. -/
inductive CmdEvent
  | openChan (k : Nat)
  | ptyReq (c : Nat)
  | execCall (c : Nat)
  | yieldCtl
deriving DecidableEq, Repr

/-- The `try` block of `_execute`: optionally request a pty, then
issue the command.  `ptyOut` and `execOut` are the outcomes of the two
engine calls on channel `c`. -/
def tryBlock (c : Nat) (usePty : Bool) (ptyOut execOut : Except PyExc Unit) :
    List CmdEvent × Except PyExc Unit :=
  if usePty then
    match ptyOut with
    | Except.error e => ([CmdEvent.ptyReq c], Except.error e)
    | Except.ok _ => ([CmdEvent.ptyReq c, CmdEvent.execCall c], execOut)
  else ([CmdEvent.execCall c], execOut)

/-- `SSHClient._execute(cmd, use_pty)`: replace the channel first when
`self.channel.closed`; run the `try` block; on an exception whose
`.message` contains the substring `"-22"`, open a fresh channel and
retry `execute` exactly once (outcome `retryOut`), propagating that
outcome; re-raise any other exception; `sleep()` on success. -/
def _execute (closed usePty : Bool) (ptyOut execOut retryOut : Except PyExc Unit) :
    List CmdEvent × Except PyExc Unit :=
  let c := if closed then 1 else 0
  let pre : List CmdEvent := if closed then [CmdEvent.openChan 1] else []
  let t := tryBlock c usePty ptyOut execOut
  match t.2 with
  | Except.ok _ => (pre ++ t.1 ++ [CmdEvent.yieldCtl], Except.ok ())
  | Except.error e =>
    if hasSub (toL "-22") (toL (PyExc.msg e)) then
      match retryOut with
      | Except.ok _ =>
        (pre ++ t.1 ++ [CmdEvent.openChan (c + 1), CmdEvent.execCall (c + 1), CmdEvent.yieldCtl],
          Except.ok ())
      | Except.error e2 =>
        (pre ++ t.1 ++ [CmdEvent.openChan (c + 1), CmdEvent.execCall (c + 1)],
          Except.error e2)
    else (pre ++ t.1, Except.error e)

/-! ### Retry driver (`SSHClient._eagain`) -/

/-- Observable actions of `_eagain`: `call k` is the `k`-th invocation
of the wrapped operation, `waitSel` is `self._wait_select()`. -/
inductive EagainEvent
  | call (k : Nat)
  | waitSel
deriving DecidableEq, Repr

/-- `SSHClient._eagain(func)`: invoke the operation, and while the
result equals `LIBSSH2_ERROR_EAGAIN` (`-37`), wait for readiness and
retry.  `results k` is the engine's result of the `k`-th invocation;
`fuel` bounds the retries only so that the model is total (the source
loops without bound until a non-sentinel result). -/
def eagainAux (results : Nat → Int) : Nat → Nat → List EagainEvent × Option Int
  | _, 0 => ([], none)
  | k, fuel + 1 =>
    if results k = -37 then
      let rest := eagainAux results (k + 1) fuel
      (EagainEvent.call k :: EagainEvent.waitSel :: rest.1, rest.2)
    else ([EagainEvent.call k], some (results k))

/-- `_eagain` starting at the first invocation. -/
def _eagain (results : Nat → Int) (fuel : Nat) : List EagainEvent × Option Int :=
  eagainAux results 0 fuel

/-- Expected `_eagain` trace when invocations `k, …, k+n-1` return the
would-block sentinel and invocation `k+n` does not: each sentinel
result is followed by a readiness wait before the retry. -/
def eagainTrace : Nat → Nat → List EagainEvent
  | k, 0 => [EagainEvent.call k]
  | k, n + 1 => EagainEvent.call k :: EagainEvent.waitSel :: eagainTrace (k + 1) n

/-! ### Lemmas about the newline search -/

theorem findNl_eq_none {l : List Char} (h : '\n' ∉ l) : findNl l = none := by
  induction l with
  | nil => rfl
  | cons c t ih =>
    have hc : ¬ c = '\n' := by
      intro hc
      exact h (hc ▸ List.mem_cons_self c t)
    have ht : '\n' ∉ t := fun hm => h (List.mem_cons_of_mem _ hm)
    simp [findNl, hc, ih ht]

theorem findNl_append_some {x : List Char} {j : Nat} (h : findNl x = some j) (y : List Char) :
    findNl (x ++ y) = some j := by
  induction x generalizing j with
  | nil => simp [findNl] at h
  | cons c t ih =>
    by_cases hc : c = '\n'
    · simp [findNl, hc] at h ⊢
      exact h
    · simp only [List.cons_append, findNl, if_neg hc, List.append_eq] at h ⊢
      cases ht : findNl t with
      | none => rw [ht] at h; simp at h
      | some j' =>
        rw [ht] at h
        simp at h
        rw [ih ht]
        simpa using h

theorem findNl_append_none {x y : List Char} (hx : findNl x = none) (hy : findNl y = none) :
    findNl (x ++ y) = none := by
  induction x with
  | nil => simpa using hy
  | cons c t ih =>
    by_cases hc : c = '\n'
    · simp [findNl, hc] at hx
    · simp only [findNl, if_neg hc] at hx
      simp only [List.cons_append, findNl, if_neg hc, List.append_eq]
      cases ht : findNl t with
      | some j => rw [ht] at hx; simp at hx
      | none => rw [ih ht]; rfl

theorem findNl_lt {x : List Char} {j : Nat} (h : findNl x = some j) : j < x.length := by
  induction x generalizing j with
  | nil => simp [findNl] at h
  | cons c t ih =>
    by_cases hc : c = '\n'
    · simp [findNl, hc] at h
      simp [← h]
    · simp only [findNl, if_neg hc] at h
      cases ht : findNl t with
      | none => rw [ht] at h; simp at h
      | some j' =>
        rw [ht] at h
        simp at h
        have := ih ht
        simp [← h]
        omega

theorem findNl_prepend_nl {a : List Char} (h : '\n' ∉ a) (t : List Char) :
    findNl (a ++ '\n' :: t) = some a.length := by
  induction a with
  | nil => simp [findNl]
  | cons c a' ih =>
    have hc : ¬ c = '\n' := by
      intro hc
      exact h (hc ▸ List.mem_cons_self c a')
    have ha : '\n' ∉ a' := fun hm => h (List.mem_cons_of_mem _ hm)
    simp only [List.cons_append, findNl, if_neg hc, List.append_eq, ih ha, Option.map_some']
    rfl

theorem findFrom_bounds {data : List Char} {pos i : Nat} (h : findFrom data pos = some i) :
    pos ≤ i ∧ i < data.length := by
  unfold findFrom at h
  cases hf : findNl (data.drop pos) with
  | none => rw [hf] at h; simp at h
  | some j =>
    rw [hf] at h
    simp at h
    have hj := findNl_lt hf
    rw [List.length_drop] at hj
    omega

theorem findFrom_none_of_not_mem {d : List Char} (h : '\n' ∉ d) (pos : Nat) :
    findFrom d pos = none := by
  unfold findFrom
  rw [findNl_eq_none (fun hm => h (List.mem_of_mem_drop hm))]
  rfl

theorem findFrom_append_some {l : List Char} {pos i : Nat} (h : findFrom l pos = some i)
    (r : List Char) : findFrom (l ++ r) pos = some i := by
  have hb := findFrom_bounds h
  unfold findFrom at h ⊢
  rw [List.drop_append_of_le_length (by omega)]
  cases hf : findNl (l.drop pos) with
  | none => rw [hf] at h; simp at h
  | some j =>
    rw [hf] at h
    rw [findNl_append_some hf r]
    exact h

theorem findFrom_append_none {l : List Char} {pos : Nat} (hpos : pos ≤ l.length)
    (h : findFrom l pos = none) {r : List Char} (hr : '\n' ∉ r) :
    findFrom (l ++ r) pos = none := by
  unfold findFrom at h ⊢
  rw [List.drop_append_of_le_length hpos]
  cases hf : findNl (l.drop pos) with
  | some j => rw [hf] at h; simp at h
  | none => rw [findNl_append_none hf (findNl_eq_none hr)]; rfl

theorem findFrom_right_none {l r : List Char} {pos : Nat} (hpos : l.length ≤ pos)
    (hr : '\n' ∉ r) : findFrom (l ++ r) pos = none := by
  unfold findFrom
  rw [List.drop_append_eq_append_drop, List.drop_eq_nil_iff.mpr hpos, List.nil_append]
  rw [findNl_eq_none (fun hm => hr (List.mem_of_mem_drop hm))]
  rfl

/-! ### Lemmas about the chunk scanner -/

theorem scanChunkAux_stop_end (fuel : Nat) (data rem : List Char) (pos : Nat)
    (h : data.length ≤ pos) : scanChunkAux fuel data rem pos = ([], rem, pos) := by
  cases fuel with
  | zero => rfl
  | succ f =>
    simp only [scanChunkAux]
    rw [if_neg (by omega)]

theorem scanChunkAux_fuel (f1 : Nat) : ∀ (f2 : Nat) (data rem : List Char) (pos : Nat),
    data.length + 1 ≤ f1 + pos → data.length + 1 ≤ f2 + pos →
    scanChunkAux f1 data rem pos = scanChunkAux f2 data rem pos := by
  induction f1 with
  | zero =>
    intro f2 data rem pos h1 h2
    rw [scanChunkAux_stop_end 0 data rem pos (by omega),
      scanChunkAux_stop_end f2 data rem pos (by omega)]
  | succ a ih =>
    intro f2 data rem pos h1 h2
    by_cases hp : pos < data.length
    · cases f2 with
      | zero => omega
      | succ b =>
        simp only [scanChunkAux]
        rw [if_pos hp, if_pos hp]
        cases hf : findFrom data pos with
        | none => rfl
        | some i =>
          by_cases hi : 0 < i
          · have hb := findFrom_bounds hf
            simp only [if_pos hi]
            rw [ih b data [] (i + 1) (by omega) (by omega)]
          · simp only [if_neg hi]
    · rw [scanChunkAux_stop_end _ _ _ _ (by omega), scanChunkAux_stop_end _ _ _ _ (by omega)]

theorem scanChunk_stop_end {data rem : List Char} {pos : Nat} (h : data.length ≤ pos) :
    scanChunk data rem pos = ([], rem, pos) :=
  scanChunkAux_stop_end _ _ _ _ h

theorem scanChunk_none {data rem : List Char} {pos : Nat} (hp : pos < data.length)
    (hf : findFrom data pos = none) :
    scanChunk data rem pos = ([], rem ++ data.drop pos, pos) := by
  unfold scanChunk
  simp only [scanChunkAux]
  rw [if_pos hp, hf]

theorem scanChunk_zero {data rem : List Char} {pos : Nat} (hp : pos < data.length)
    (hf : findFrom data pos = some 0) :
    scanChunk data rem pos = ([], rem ++ data.drop pos, pos) := by
  unfold scanChunk
  simp only [scanChunkAux]
  rw [if_pos hp, hf]
  simp

theorem scanChunk_emit {data rem : List Char} {pos i : Nat} (hp : pos < data.length)
    (hf : findFrom data pos = some i) (hi : 0 < i) :
    scanChunk data rem pos =
      ((rem ++ pyStrip (pySlice data pos i)) :: (scanChunk data [] (i + 1)).1,
        (scanChunk data [] (i + 1)).2) := by
  have hb := findFrom_bounds hf
  unfold scanChunk
  conv_lhs => simp only [scanChunkAux]
  rw [if_pos hp]
  simp only [hf, if_pos hi]
  rw [scanChunkAux_fuel data.length (data.length + 1) data [] (i + 1) (by omega) (by omega)]

theorem findFrom_zero (d : List Char) : findFrom d 0 = findNl d := by
  unfold findFrom
  rw [List.drop_zero]
  cases findNl d <;> simp

theorem scanChunkAux_append_lines {r : List Char} (hr : '\n' ∉ r) :
    ∀ (fuel : Nat) (l rem : List Char) (pos : Nat),
    (scanChunkAux fuel (l ++ r) rem pos).1 = (scanChunkAux fuel l rem pos).1 := by
  intro fuel
  induction fuel with
  | zero => intro l rem pos; rfl
  | succ f ih =>
    intro l rem pos
    have hlen : (l ++ r).length = l.length + r.length := List.length_append l r
    by_cases hp : pos < (l ++ r).length
    · by_cases hpl : pos < l.length
      · cases hf : findFrom l pos with
        | some i =>
          have hfa := findFrom_append_some hf r
          have hb := findFrom_bounds hf
          by_cases hi : 0 < i
          · have hsl : pySlice (l ++ r) pos i = pySlice l pos i := by
              unfold pySlice
              rw [List.take_append_of_le_length (by omega)]
            simp only [scanChunkAux]
            rw [if_pos hp, if_pos hpl]
            simp only [hf, hfa, if_pos hi, hsl]
            rw [ih l [] (i + 1)]
          · simp only [scanChunkAux]
            rw [if_pos hp, if_pos hpl]
            simp only [hf, hfa, if_neg hi]
        | none =>
          have hfa := findFrom_append_none (by omega) hf hr
          simp only [scanChunkAux]
          rw [if_pos hp, if_pos hpl]
          simp only [hf, hfa]
      · have hfa := findFrom_right_none (by omega : l.length ≤ pos) hr
        simp only [scanChunkAux]
        rw [if_pos hp, if_neg hpl]
        simp only [hfa]
    · rw [scanChunkAux_stop_end (f + 1) (l ++ r) rem pos (by omega),
        scanChunkAux_stop_end (f + 1) l rem pos (by omega)]

theorem scanChunk_append_lines {r : List Char} (hr : '\n' ∉ r) (l rem : List Char) (pos : Nat) :
    (scanChunk (l ++ r) rem pos).1 = (scanChunk l rem pos).1 := by
  have hlen : (l ++ r).length = l.length + r.length := List.length_append l r
  unfold scanChunk
  rw [scanChunkAux_fuel (l.length + 1) ((l ++ r).length + 1) l rem pos (by omega) (by omega)]
  exact scanChunkAux_append_lines hr ((l ++ r).length + 1) l rem pos

theorem scanChunk_lines_no_nl {d : List Char} (h : '\n' ∉ d) (rem : List Char) (pos : Nat) :
    (scanChunk d rem pos).1 = [] := by
  by_cases hp : pos < d.length
  · rw [scanChunk_none hp (findFrom_none_of_not_mem h pos)]
  · rw [scanChunk_stop_end (by omega)]

theorem readLoop_drop_tail {r : List Char} (hr : '\n' ∉ r) (hne : r ≠ []) :
    ∀ (chunks : List (List Char)) (l rem : List Char) (pos : Nat),
    readLoop (chunks ++ [l ++ r]) rem pos = readLoop (chunks ++ [l]) rem pos := by
  intro chunks
  induction chunks with
  | nil =>
    intro l rem pos
    simp only [List.nil_append]
    by_cases hl : l = []
    · subst hl
      simp only [List.nil_append, readLoop]
      rw [if_neg (by simpa using hne)]
      simp [scanChunk_lines_no_nl hr]
    · simp only [readLoop]
      rw [if_neg (by simpa using (by simp [hl] : ¬ (l ++ r) = [])),
        if_neg (by simpa using hl)]
      simp only [readLoop, List.append_nil]
      exact scanChunk_append_lines hr l rem pos
  | cons d rest ih =>
    intro l rem pos
    simp only [List.cons_append, readLoop, List.append_eq]
    by_cases hd : d.length = 0
    · rw [if_pos hd, if_pos hd]
    · rw [if_neg hd, if_neg hd]
      rw [ih]

theorem drop_after_nl (a t : List Char) : (a ++ '\n' :: t).drop (a.length + 1) = t := by
  have h : a ++ '\n' :: t = (a ++ ['\n']) ++ t := by simp
  rw [h, List.drop_left' (by simp)]

theorem take_at_nl (a t : List Char) : (a ++ '\n' :: t).take a.length = a :=
  List.take_left' rfl

theorem read_output_two_lines {a b : List Char} (hA : '\n' ∉ a) (hB : '\n' ∉ b)
    (ha : a ≠ []) :
    read_output_lines [a ++ '\n' :: (b ++ ['\n'])] = [pyStrip a, pyStrip b] := by
  have hlen : (a ++ '\n' :: (b ++ ['\n'])).length = a.length + b.length + 2 := by
    simp
    omega
  have hf1 : findFrom (a ++ '\n' :: (b ++ ['\n'])) 0 = some a.length := by
    rw [findFrom_zero, findNl_prepend_nl hA]
  have hs1 : pySlice (a ++ '\n' :: (b ++ ['\n'])) 0 a.length = a := by
    unfold pySlice
    rw [List.drop_zero, take_at_nl]
  have hf2 : findFrom (a ++ '\n' :: (b ++ ['\n'])) (a.length + 1)
      = some (a.length + 1 + b.length) := by
    unfold findFrom
    rw [drop_after_nl, findNl_prepend_nl hB]
    rfl
  have hs2 : pySlice (a ++ '\n' :: (b ++ ['\n'])) (a.length + 1) (a.length + 1 + b.length)
      = b := by
    unfold pySlice
    have hassoc : a ++ '\n' :: (b ++ ['\n']) = (a ++ '\n' :: b) ++ ['\n'] := by simp
    rw [hassoc, List.take_left' (by simp; omega), drop_after_nl]
  have e1 := @scanChunk_emit (a ++ '\n' :: (b ++ ['\n'])) [] 0 a.length
    (by omega) hf1 (List.length_pos.mpr ha)
  have e2 := @scanChunk_emit (a ++ '\n' :: (b ++ ['\n'])) [] (a.length + 1)
    (a.length + 1 + b.length) (by omega) hf2 (by omega)
  have e3 := @scanChunk_stop_end (a ++ '\n' :: (b ++ ['\n'])) [] (a.length + 1 + b.length + 1)
    (by omega)
  simp only [read_output_lines, readLoop]
  rw [if_neg (by rw [hlen]; omega)]
  rw [e1, e2, e3]
  simp [hs1, hs2]

theorem read_output_remainder_prepended {a b : List Char} (hA : '\n' ∉ a) (hB : '\n' ∉ b)
    (ha : a ≠ []) (hb : b ≠ []) :
    read_output_lines [a, b ++ ['\n']] = [a ++ pyStrip b] := by
  have h1 : scanChunk a [] 0 = ([], a, 0) := by
    have h := @scanChunk_none a [] 0 (List.length_pos.mpr ha)
      (findFrom_none_of_not_mem hA 0)
    simpa using h
  have hlen2 : (b ++ ['\n']).length = b.length + 1 := by simp
  have hf : findFrom (b ++ ['\n']) 0 = some b.length := by
    rw [findFrom_zero, findNl_prepend_nl hB]
  have hs : pySlice (b ++ ['\n']) 0 b.length = b := by
    unfold pySlice
    rw [List.drop_zero, List.take_left' rfl]
  have e := @scanChunk_emit (b ++ ['\n']) a 0 b.length (by omega)
    hf (List.length_pos.mpr hb)
  have e2 := @scanChunk_stop_end (b ++ ['\n']) [] (b.length + 1) (by omega)
  simp only [read_output_lines, readLoop]
  rw [if_neg (by simpa using ha)]
  rw [h1]
  simp only []
  rw [if_neg (by rw [hlen2]; omega)]
  rw [e, e2]
  simp [hs]

end Pssh

namespace Pssh

/-! ## Claims -/

/-- C1: the claim states that for every multi-line payload and every
way of cutting it into chunks, feeding the chunks one at a time
through `read_output` yields the same line sequence as feeding the
whole payload as one chunk.  The code violates this: `_pos` is not
reset to `0` when a fresh chunk is read, so the payload `"a\nb\n"`
cut at byte offset 2 loses the line `"b"`: the chunked feed yields
only `["a"]` while the single-chunk feed yields `["a", "b"]`. -/
theorem read_output_not_chunk_invariant :
    read_output_lines [toL "a\nb\n"] = [toL "a", toL "b"] ∧
    read_output_lines [toL "a\n", toL "b\n"] = [toL "a"] :=
  ⟨by decide, by decide⟩

/-- C2: the claim states that the tuple returned by `exec_command`
contains a non-empty lazy stderr line sequence sourced from the
channel's error stream.  The code violates this: the stderr slot of
the returned tuple is the literal `iter([])`, always empty, even when
the error stream holds data (here `"me\n"`, for which the unused
`read_stderr` would have produced the non-empty `["me"]`). -/
theorem exec_command_stderr_always_empty :
    (∀ chunks : List (List Char), (exec_command chunks).2 = []) ∧
    read_stderr (some (toL "me\n")) = [toL "me"] ∧
    read_stderr (some (toL "me\n")) ≠ [] :=
  ⟨fun _ => rfl, by decide, by decide⟩

/-- C7: when the stdout sequence reaches true end-of-stream, a
non-empty remainder of bytes never followed by a line terminator is
dropped: appending such a trailing fragment `r` to the final chunk
leaves the emitted line sequence unchanged — `r` is never emitted as a
final line. -/
theorem read_output_drops_trailing_remainder (chunks : List (List Char)) (l r : List Char)
    (hne : r ≠ []) (hr : '\n' ∉ r) :
    read_output_lines (chunks ++ [l ++ r]) = read_output_lines (chunks ++ [l]) :=
  readLoop_drop_tail hr hne chunks l [] 0

theorem read_output_drops_trailing_remainder_witness :
    read_output_lines ([toL "a\n"] ++ [toL "b\n" ++ toL "cd"]) =
      read_output_lines ([toL "a\n"] ++ [toL "b\n"]) :=
  read_output_drops_trailing_remainder [toL "a\n"] (toL "b\n") (toL "cd")
    (by decide) (by decide)

/-- C9 counterexample: the claim states that each complete line is
emitted with exactly its trailing whitespace stripped and its leading
whitespace preserved.  The code uses Python `strip()`, which removes
leading whitespace too: the payload `"  a\n"` is emitted as `"a"`, not
`"  a"`. -/
theorem read_output_strips_leading_too :
    read_output_lines [toL "  a\n"] = [toL "a"] ∧ toL "a" ≠ toL "  a" :=
  ⟨by decide, by decide⟩

/-- C9 (amended): every complete line is emitted stripped of both
leading and trailing whitespace (Python `strip()`), with any pending
remainder prepended unstripped, in the exact order the lines appear in
the byte stream; trailing unterminated bytes of a chunk become the
remainder and are prepended to the next emitted line. -/
theorem read_output_line_emission (a b : List Char) (hA : '\n' ∉ a) (hB : '\n' ∉ b)
    (ha : a ≠ []) :
    read_output_lines [a ++ '\n' :: (b ++ ['\n'])] = [pyStrip a, pyStrip b] ∧
    (b ≠ [] → read_output_lines [a, b ++ ['\n']] = [a ++ pyStrip b]) :=
  ⟨read_output_two_lines hA hB ha,
    fun hb => read_output_remainder_prepended hA hB ha hb⟩

theorem read_output_line_emission_witness :
    read_output_lines [toL "x " ++ '\n' :: (toL " y" ++ ['\n'])]
        = [pyStrip (toL "x "), pyStrip (toL " y")] ∧
    read_output_lines [toL "x ", toL " y" ++ ['\n']] = [toL "x " ++ pyStrip (toL " y")] :=
  ⟨(read_output_line_emission (toL "x ") (toL " y") (by decide) (by decide) (by decide)).1,
    (read_output_line_emission (toL "x ") (toL " y") (by decide) (by decide) (by decide)).2
      (by decide)⟩

/-- C10: when the terminator search finds a match at index 0 of the
freshly read data (the data begins with the terminator and the scan
position is 0), the `linesep > 0` test fails and the match is treated
as no terminator found: no line is emitted — not even an empty one —
the entire data from the scan position onward, terminators included,
is appended to the remainder, and scanning of that data stops (the
read loop moves on to the next read). -/
theorem scan_terminator_at_index_zero (t rem : List Char) (rest : List (List Char)) :
    scanChunk ('\n' :: t) rem 0 = ([], rem ++ '\n' :: t, 0) ∧
    readLoop (('\n' :: t) :: rest) rem 0 = readLoop rest (rem ++ '\n' :: t) 0 := by
  have hf : findFrom ('\n' :: t) 0 = some 0 := by
    rw [findFrom_zero]
    simp [findNl]
  have hsc := @scanChunk_zero ('\n' :: t) rem 0 (by simp) hf
  rw [List.drop_zero] at hsc
  refine ⟨hsc, ?_⟩
  simp only [readLoop]
  rw [if_neg (by simp)]
  rw [hsc]
  rfl

end Pssh

namespace Pssh

/-! ### Lemmas about the connection manager -/

theorem connFailTrace_counts : ∀ (n r : Nat),
    (connFailTrace r n).countP isAttemptEv = n ∧
    (connFailTrace r n).countP isSleepEv = n - 1 := by
  intro n
  induction n using Nat.strong_induction_on with
  | _ n ih =>
    intro r
    match n with
    | 0 => simp [connFailTrace]
    | 1 => simp [connFailTrace, List.countP_cons, isAttemptEv, isSleepEv]
    | m + 2 =>
      have h := ih (m + 1) (by omega) (r + 1)
      simp only [connFailTrace, List.countP_cons, isAttemptEv, isSleepEv, h.1, h.2]
      constructor <;> simp

theorem connectAux_step_fail (h : String) (p : Nat) (nr : Nat) (fails : Nat → Bool)
    (errOf : Nat → String) (g r : Nat) (hfr : fails r = true) (hlt : r < nr) :
    connectAux h p nr fails errOf (g + 1) r
      = (ConnEvent.blocking true :: ConnEvent.attempt r :: ConnEvent.sleep 5 ::
          (connectAux h p nr fails errOf g (r + 1)).1,
          (connectAux h p nr fails errOf g (r + 1)).2) := by
  simp only [connectAux, hfr, if_true, if_pos hlt]

theorem connectAux_all_fail (h : String) (p : Nat) (nr : Nat) (fails : Nat → Bool)
    (errOf : Nat → String) (hfail : ∀ k, fails k = true) :
    ∀ (g r : Nat), r + (g + 1) = nr + 1 →
    connectAux h p nr fails errOf (g + 1) r
      = (connFailTrace r (g + 1), Except.error ⟨h, p, errOf nr, nr, nr⟩) := by
  intro g
  induction g with
  | zero =>
    intro r hr
    have hrn : r = nr := by omega
    subst hrn
    simp [connectAux, hfail r, connFailTrace]
  | succ g ih =>
    intro r hr
    have hlt : r < nr := by omega
    rw [connectAux_step_fail h p nr fails errOf (g + 1) r (hfail r) hlt]
    rw [ih (r + 1) (by omega)]
    simp [connFailTrace]

end Pssh

namespace Pssh

/-- C3: against a host whose connect call always fails and with
`num_retries ≥ 1`, `_connect` makes exactly `num_retries` attempts
(each preceded by `setblocking(1)`), sleeps the fixed 5-unit backoff
between consecutive attempts, and raises `ConnectionErrorException`
carrying host, port, the attempt count and the underlying OS error;
on any successful attempt it sets the socket non-blocking before
returning. -/
theorem connect_retry_spec (h : String) (p : Nat) (nr : Nat) (fails : Nat → Bool)
    (errOf : Nat → String) :
    (1 ≤ nr → (∀ k, fails k = true) →
      _connect h p nr fails errOf
          = (connFailTrace 1 nr, Except.error ⟨h, p, errOf nr, nr, nr⟩) ∧
        (connFailTrace 1 nr).countP isAttemptEv = nr ∧
        (connFailTrace 1 nr).countP isSleepEv = nr - 1) ∧
    (∀ (gas r : Nat), fails r = false →
      connectAux h p nr fails errOf gas r
        = ([ConnEvent.blocking true, ConnEvent.attempt r, ConnEvent.blocking false],
            Except.ok ())) := by
  constructor
  · intro h1 hfail
    refine ⟨?_, (connFailTrace_counts nr 1).1, (connFailTrace_counts nr 1).2⟩
    unfold _connect
    have hthis := connectAux_all_fail h p nr fails errOf hfail (nr - 1) 1 (by omega)
    have hn : nr - 1 + 1 = nr := by omega
    rw [hn] at hthis
    exact hthis
  · intro gas r hfr
    cases gas <;> simp [connectAux, hfr]

theorem connect_retry_spec_witness :
    _connect "example.com" 22 3 (fun _ => true) (fun _ => "Connection refused")
        = (connFailTrace 1 3,
            Except.error ⟨"example.com", 22, "Connection refused", 3, 3⟩) ∧
    connectAux "example.com" 22 3 (fun _ => false) (fun _ => "Connection refused") 3 1
      = ([ConnEvent.blocking true, ConnEvent.attempt 1, ConnEvent.blocking false],
          Except.ok ()) :=
  ⟨((connect_retry_spec "example.com" 22 3 (fun _ => true) (fun _ => "Connection refused")).1
      (by decide) (fun _ => rfl)).1,
    (connect_retry_spec "example.com" 22 3 (fun _ => false) (fun _ => "Connection refused")).2
      3 1 rfl⟩

/-- C4: with an explicit private key configured (`pkey` is not
`None`), `auth` runs only the explicit-key strategy: the event trace
is exactly the single `_pkey_auth` attempt — no agent call, no
identity-file attempt — and the outcome of that attempt (success, or
the authentication failure raised by the engine) is surfaced to the
caller unchanged and immediately; no fallback runs on failure. -/
theorem auth_pkey_only (k : String) (pkeyOutcome agentOutcome : Except PyExc Unit)
    (files : List String) (existsF : String → Bool)
    (idOutcomes : String → Except PyExc Unit) (b0 : Bool) :
    auth (some k) pkeyOutcome agentOutcome files existsF idOutcomes b0
      = ([AuthEvent.pkeyAttempt], b0, pkeyOutcome) :=
  rfl

/-- C5: the claim states that the session is restored to non-blocking
mode after agent authentication regardless of outcome, so that any
fallback strategy runs non-blocking.  The code violates this: there is
no `try/finally`, so when `userauth_agent` raises, the final
`setblocking(0)` is skipped (no `setBlocking false` event), the
session is left in blocking mode, and the identity-file fallback then
runs with the session still blocking. -/
theorem agent_auth_blocking_not_restored :
    _agent_auth (Except.error (PyExc.engineError "Agent auth failure")) false
      = ([AuthEvent.setBlocking true, AuthEvent.agentCall], true,
          Except.error (PyExc.engineError "Agent auth failure")) ∧
    (auth none (Except.ok ()) (Except.error (PyExc.engineError "Agent auth failure"))
        ["/home/user/.ssh/id_rsa"] (fun _ => true)
        (fun _ => Except.error (PyExc.engineError "Authentication failed")) false).1
      = [AuthEvent.setBlocking true, AuthEvent.agentCall,
          AuthEvent.identityAttempt "/home/user/.ssh/id_rsa" true] ∧
    (auth none (Except.ok ()) (Except.error (PyExc.engineError "Agent auth failure"))
        ["/home/user/.ssh/id_rsa"] (fun _ => true)
        (fun _ => Except.error (PyExc.engineError "Authentication failed")) false).2.1
      = true :=
  ⟨rfl, rfl, rfl⟩

/-- C6: a channel that reports closed is transparently replaced by a
freshly opened channel before the command is issued; when the command
raises an engine error whose message carries code `-22`, the channel
is reopened and the command retried exactly once on the fresh channel,
with the retry's outcome — success or a second failure — propagated
as-is; any error not carrying `-22` propagates without a retry.
(The source detects `-22` by a substring test on `ex.message`.) -/
theorem execute_channel_recovery :
    (∀ (u : Bool) (po eo ro : Except PyExc Unit),
      (_execute true u po eo ro).1.head? = some (CmdEvent.openChan 1)) ∧
    (∀ (e : PyExc) (ro : Except PyExc Unit),
      hasSub (toL "-22") (toL (PyExc.msg e)) = true →
      _execute false true (Except.ok ()) (Except.error e) ro
        = ([CmdEvent.ptyReq 0, CmdEvent.execCall 0, CmdEvent.openChan 1, CmdEvent.execCall 1]
              ++ (match ro with
                  | Except.ok _ => [CmdEvent.yieldCtl]
                  | Except.error _ => []),
            ro)) ∧
    (∀ (e : PyExc) (ro : Except PyExc Unit),
      hasSub (toL "-22") (toL (PyExc.msg e)) = false →
      _execute false true (Except.ok ()) (Except.error e) ro
        = ([CmdEvent.ptyReq 0, CmdEvent.execCall 0], Except.error e)) := by
  refine ⟨?_, ?_, ?_⟩
  · intro u po eo ro
    cases u <;> cases po <;> cases eo <;> cases ro <;>
      simp [_execute, tryBlock] <;> split <;> simp
  · intro e ro hyes
    cases ro <;> simp [_execute, tryBlock, hyes]
  · intro e ro hno
    cases ro <;> simp [_execute, tryBlock, hno]

theorem execute_channel_recovery_witness :
    _execute false true (Except.ok ())
        (Except.error (PyExc.engineError "Channel failure (-22)"))
        (Except.error (PyExc.engineError "Channel failure (-22)"))
      = ([CmdEvent.ptyReq 0, CmdEvent.execCall 0, CmdEvent.openChan 1, CmdEvent.execCall 1],
          Except.error (PyExc.engineError "Channel failure (-22)")) ∧
    _execute false true (Except.ok ())
        (Except.error (PyExc.engineError "Some other failure"))
        (Except.ok ())
      = ([CmdEvent.ptyReq 0, CmdEvent.execCall 0],
          Except.error (PyExc.engineError "Some other failure")) := by
  constructor
  · have h := execute_channel_recovery.2.1 (PyExc.engineError "Channel failure (-22)")
      (Except.error (PyExc.engineError "Channel failure (-22)")) (by decide)
    simpa using h
  · exact execute_channel_recovery.2.2 (PyExc.engineError "Some other failure")
      (Except.ok ()) (by decide)

end Pssh

namespace Pssh

/-! ### Lemmas about the retry driver -/

theorem eagainAux_run (results : Nat → Int) :
    ∀ (j k fuel : Nat), (∀ i, i < j → results (k + i) = -37) → results (k + j) ≠ -37 →
    j < fuel →
    eagainAux results k fuel = (eagainTrace k j, some (results (k + j))) := by
  intro j
  induction j with
  | zero =>
    intro k fuel hall hj hf
    match fuel, hf with
    | f + 1, _ =>
      rw [Nat.add_zero] at hj
      simp [eagainAux, eagainTrace, hj]
  | succ j ih =>
    intro k fuel hall hj hf
    match fuel, hf with
    | f + 1, _ =>
      have h0 : results k = -37 := by
        have h := hall 0 (by omega)
        simpa using h
      simp only [eagainAux, if_pos h0]
      rw [ih (k + 1) f
        (by
          intro i hi
          have h := hall (i + 1) (by omega)
          rwa [show k + (i + 1) = k + 1 + i from by omega] at h)
        (by rwa [show k + 1 + j = k + (j + 1) from by omega])
        (by omega)]
      simp only [eagainTrace]
      rw [show k + 1 + j = k + (j + 1) from by omega]

end Pssh

namespace Pssh

/-- C8: `_eagain` loops while the wrapped operation's result equals
the would-block sentinel `-37`, calling the readiness waiter before
each retry, and returns the first non-sentinel result unchanged —
including negative protocol-error results, which it does not
interpret; consequently a `-37` is never returned to the caller. -/
theorem eagain_first_non_sentinel (results : Nat → Int) :
    (∀ (j fuel : Nat), (∀ i, i < j → results i = -37) → results j ≠ -37 → j < fuel →
      _eagain results fuel = (eagainTrace 0 j, some (results j))) ∧
    (∀ (k fuel : Nat) (v : Int), (eagainAux results k fuel).2 = some v → v ≠ -37) := by
  constructor
  · intro j fuel hall hj hf
    have h := eagainAux_run results j 0 fuel (by intro i hi; simpa using hall i hi)
      (by simpa using hj) hf
    simpa using h
  · intro k fuel
    induction fuel generalizing k with
    | zero =>
      intro v hv
      simp [eagainAux] at hv
    | succ f ih =>
      intro v hv
      by_cases h0 : results k = -37
      · simp only [eagainAux, if_pos h0] at hv
        exact ih (k + 1) v hv
      · simp only [eagainAux, if_neg h0] at hv
        simp at hv
        rw [← hv]
        exact h0

theorem eagain_first_non_sentinel_witness :
    _eagain (fun i => if i < 2 then (-37 : Int) else -15) 5
      = (eagainTrace 0 2, some (-15)) := by
  have h := (eagain_first_non_sentinel (fun i => if i < 2 then (-37 : Int) else -15)).1 2 5
    (by intro i hi; interval_cases i <;> decide)
    (by decide)
    (by decide)
  simpa using h

end Pssh
